import Mathlib

/-!
# Struct encoding planner (`reflect_struct_encoder.go`)

A shallow embedding of the struct-encoding planner: the conflict resolver
`resolveConflictBinding`, the plan assembler `encoderOfStruct`, the field
dispatcher `structFieldEncoder`, the struct plan `structEncoder`, the leaf
codec selector `createCheckIsEmpty` and the adapter `stringModeNumberEncoder`,
followed by the properties established about them.

Conventions of the embedding:
* a Go pointer to a mutable record that is updated in place (`*bindingTo`)
  becomes a value that is threaded through the loop which updates it;
* `unsafe.Pointer` is a natural number (an address), pointer arithmetic is
  addition modulo `2 ^ 64`;
* the output writer `Stream` is a byte buffer (a `String`) together with the
  error slot.
-/

namespace jsoniter

/-! ## Data model -/

/-- The error values the stream's error slot can hold.  `io.EOF` is a sentinel
compared by identity; every other error is known by its message. -/
inductive GoError where
  | EOF : GoError
  | errorString (msg : String) : GoError
deriving DecidableEq, Repr

/-- The method `Error()` of a Go error: its message. -/
def GoError.Error : GoError → String
  | .EOF => "EOF"
  | .errorString msg => msg

/-- The output writer: the bytes written so far and the single error slot
(`nil` is `none`). -/
structure Stream where
  buf : String
  Error : Option GoError
deriving DecidableEq, Repr

/-- An address (`unsafe.Pointer` seen as `uintptr`). -/
abbrev Pointer := Nat

/-- The frozen configuration; only the tag key it reports is used here. -/
structure frozenConfig where
  tagKey : String
deriving DecidableEq, Repr

/-- The accessor `cfg.getTagKey()`. -/
def frozenConfig.getTagKey (cfg : frozenConfig) : String := cfg.tagKey

/-- A struct tag (`reflect.StructTag`) in parsed form: its key/value pairs in
the order they are written. -/
structure StructTag where
  pairs : List (String × String)
deriving DecidableEq, Repr

/-- The method `Tag.Get(key)`: the value of the first pair with that key, and
the empty string when there is none. -/
def StructTag.Get (tag : StructTag) (key : String) : String :=
  match tag.pairs.find? (fun p => p.1 == key) with
  | some p => p.2
  | none => ""

/-- The part of `reflect.StructField` the planner reads. -/
structure StructField where
  Name : String
  Tag : StructTag
  Offset : Nat
deriving DecidableEq, Repr

/-- The interface `ValEncoder`, with the optional capability
`IsEmbeddedPtrNil` (`none` when the dynamic type does not implement it). -/
structure ValEncoder where
  Encode : Pointer → Stream → Stream
  IsEmpty : Pointer → Bool
  IsEmbeddedPtrNil : Option (Pointer → Bool)

/-- The field dispatcher `structFieldEncoder`. -/
structure structFieldEncoder where
  field : StructField
  fieldEncoder : ValEncoder
  omitempty : Bool

/-- A binding as the planner sees it.  `levels` is the path of field indices
from the root type, so the embedding depth is `levels.length`.  The member
`Encoder` is held at the type `structFieldEncoder`, the dynamic type the
assertion `binding.Encoder.(*structFieldEncoder)` of `encoderOfStruct`
requires. -/
structure Binding where
  levels : List Int
  Field : StructField
  ToNames : List String
  Encoder : structFieldEncoder

/-- The descriptor returned by `describeStruct`: the bindings in order. -/
structure StructDescriptor where
  Fields : List Binding

/-- The local record `bindingTo` of `encoderOfStruct`. -/
structure bindingTo where
  binding : Binding
  toName : String
  ignored : Bool

/-- One entry of a struct plan: `structFieldTo`. -/
structure structFieldTo where
  encoder : structFieldEncoder
  toName : String

/-- The kinds of `reflect.Kind`. -/
inductive Kind where
  | Invalid | Bool | Int | Int8 | Int16 | Int32 | Int64
  | Uint | Uint8 | Uint16 | Uint32 | Uint64 | Uintptr
  | Float32 | Float64 | Complex64 | Complex128
  | Array | Chan | Func | Interface | Map | Ptr | Slice | String | Struct | UnsafePointer
deriving DecidableEq, Repr

/-- A reflected type, known here by the text `%v` prints for it and by the
kind `typ.Kind()` reports (a struct type unless said otherwise). -/
structure GoType where
  name : String
  kind : Kind := Kind.Struct
deriving DecidableEq, Repr

/-- The struct plan `structEncoder`. -/
structure structEncoder where
  typ : GoType
  fields : List structFieldTo

/-- The two encoders `encoderOfStruct` can return. -/
inductive StructPlan where
  | emptyStructEncoder : StructPlan
  | structEncoder (encoder : structEncoder) : StructPlan

/-! ## Conflict resolver -/

/-- The function `resolveConflictBinding`: the pair `(ignoreOld, ignoreNew)`. -/
def resolveConflictBinding (cfg : frozenConfig) (old new : Binding) : Bool × Bool :=
  let newTagged := new.Field.Tag.Get cfg.getTagKey != ""
  let oldTagged := old.Field.Tag.Get cfg.getTagKey != ""
  if newTagged then
    if oldTagged then
      if old.levels.length > new.levels.length then (true, false)
      else if new.levels.length > old.levels.length then (false, true)
      else (true, true)
    else (true, false)
  else
    if oldTagged then (true, false)
    else if old.levels.length > new.levels.length then (true, false)
    else if new.levels.length > old.levels.length then (false, true)
    else (true, true)

/-! ## Plan assembler -/

/-- The innermost loop of `encoderOfStruct` (`for _, old := range
orderedBindings`): every recorded candidate with the name of `new` is compared
with `new`, and the two flags returned are assigned to `old.ignored` and
`new.ignored`.  Returns the updated list and the updated `new`. -/
def resolveAgainst (cfg : frozenConfig) :
    List bindingTo → bindingTo → List bindingTo × bindingTo
  | [], new => ([], new)
  | old :: rest, new =>
    if old.toName != new.toName then
      let r := resolveAgainst cfg rest new
      (old :: r.1, r.2)
    else
      let flags := resolveConflictBinding cfg old.binding new.binding
      let r := resolveAgainst cfg rest { new with ignored := flags.2 }
      ({ old with ignored := flags.1 } :: r.1, r.2)

/-- The body of the loop over `binding.ToNames`: build the candidate, resolve
it against the recorded ones, append it. -/
def addCandidate (cfg : frozenConfig) (orderedBindings : List bindingTo)
    (binding : Binding) (toName : String) : List bindingTo :=
  let new : bindingTo := { binding := binding, toName := toName, ignored := false }
  let r := resolveAgainst cfg orderedBindings new
  r.1 ++ [r.2]

/-- The loop `for _, toName := range binding.ToNames`. -/
def addBinding (cfg : frozenConfig) (orderedBindings : List bindingTo)
    (binding : Binding) : List bindingTo :=
  binding.ToNames.foldl (fun acc toName => addCandidate cfg acc binding toName) orderedBindings

/-- The loop `for _, binding := range structDescriptor.Fields`, started from
the empty list: the value of `orderedBindings` when it ends. -/
def orderedBindings (cfg : frozenConfig) (fields : List Binding) : List bindingTo :=
  fields.foldl (fun acc binding => addBinding cfg acc binding) []

/-- The second loop of `encoderOfStruct`: the candidates not ignored, in
order, as plan entries. -/
def finalOrderedFields : List bindingTo → List structFieldTo
  | [] => []
  | b :: rest =>
    if !b.ignored then
      { encoder := b.binding.Encoder, toName := b.toName } :: finalOrderedFields rest
    else finalOrderedFields rest

/-- The function `encoderOfStruct`, on the descriptor `describeStruct` returned
for the type. -/
def encoderOfStruct (cfg : frozenConfig) (typ : GoType)
    (structDescriptor : StructDescriptor) : StructPlan :=
  let obs := orderedBindings cfg structDescriptor.Fields
  if obs.length == 0 then StructPlan.emptyStructEncoder
  else StructPlan.structEncoder { typ := typ, fields := finalOrderedFields obs }

/-- The field list of the plan `encoderOfStruct` builds (none for the
empty-object encoder). -/
def StructPlan.fields : StructPlan → List structFieldTo
  | .emptyStructEncoder => []
  | .structEncoder encoder => encoder.fields

/-- The candidate list in discovery order: bindings in descriptor order, and
within a binding its output names in order. -/
def candidates (fields : List Binding) : List (Binding × String) :=
  fields.flatMap (fun binding => binding.ToNames.map (fun toName => (binding, toName)))

/-! ## Output writer -/

/-- Modelled from the spec: the writer method `Stream.writeByte`, which is not
part of the source file; it appends one byte to the output. -/
def Stream.writeByte (stream : Stream) (c : Char) : Stream :=
  { stream with buf := stream.buf.push c }

/-- Modelled from the spec: the writer method `Stream.WriteObjectStart`, which
is not part of the source file; object-start is the byte `{`. -/
def Stream.WriteObjectStart (stream : Stream) : Stream :=
  { stream with buf := stream.buf ++ "\x7b" }

/-- Modelled from the spec: the writer method `Stream.WriteMore`, which is not
part of the source file; the field separator is the byte `,`. -/
def Stream.WriteMore (stream : Stream) : Stream :=
  { stream with buf := stream.buf ++ "," }

/-- Modelled from the spec: the writer method `Stream.WriteObjectField`, which
is not part of the source file; it writes the output name between double quotes
followed by a colon. -/
def Stream.WriteObjectField (stream : Stream) (field : String) : Stream :=
  { stream with buf := stream.buf ++ ("\"" ++ field ++ "\":") }

/-- Modelled from the spec: the writer method `Stream.WriteObjectEnd`, which is
not part of the source file; object-end is the byte `}`. -/
def Stream.WriteObjectEnd (stream : Stream) : Stream :=
  { stream with buf := stream.buf ++ "\x7d" }

/-- Modelled from the spec: the writer method `Stream.WriteEmptyObject`, which
is not part of the source file; it writes the two bytes of an empty object. -/
def Stream.WriteEmptyObject (stream : Stream) : Stream :=
  { stream with buf := stream.buf ++ "\x7b\x7d" }

/-! ## Field dispatcher -/

/-- The address of the field: `uintptr(ptr) + encoder.field.Offset`. -/
def structFieldEncoder.fieldPtr (encoder : structFieldEncoder) (ptr : Pointer) : Pointer :=
  (ptr + encoder.field.Offset) % 2 ^ 64

/-- The method `structFieldEncoder.Encode`. -/
def structFieldEncoder.Encode (encoder : structFieldEncoder) (ptr : Pointer)
    (stream : Stream) : Stream :=
  let stream := encoder.fieldEncoder.Encode (encoder.fieldPtr ptr) stream
  match stream.Error with
  | none => stream
  | some GoError.EOF => stream
  | some err =>
    { stream with
      Error := some (GoError.errorString (encoder.field.Name ++ ": " ++ err.Error)) }

/-- The method `structFieldEncoder.IsEmpty`. -/
def structFieldEncoder.IsEmpty (encoder : structFieldEncoder) (ptr : Pointer) : Bool :=
  encoder.fieldEncoder.IsEmpty (encoder.fieldPtr ptr)

/-- The method `structFieldEncoder.IsEmbeddedPtrNil`. -/
def structFieldEncoder.IsEmbeddedPtrNil (encoder : structFieldEncoder) (ptr : Pointer) : Bool :=
  match encoder.fieldEncoder.IsEmbeddedPtrNil with
  | none => false
  | some isEmbeddedPtrNil => isEmbeddedPtrNil (encoder.fieldPtr ptr)

/-! ## Struct plan -/

/-- The field loop of `structEncoder.Encode`, with the loop variable
`isNotFirst`. -/
def structEncoder.encodeFields (ptr : Pointer) :
    List structFieldTo → Bool → Stream → Stream
  | [], _, stream => stream
  | field :: rest, isNotFirst, stream =>
    if field.encoder.omitempty && field.encoder.IsEmpty ptr then
      structEncoder.encodeFields ptr rest isNotFirst stream
    else if field.encoder.IsEmbeddedPtrNil ptr then
      structEncoder.encodeFields ptr rest isNotFirst stream
    else
      let stream := if isNotFirst then stream.WriteMore else stream
      let stream := stream.WriteObjectField field.toName
      let stream := field.encoder.Encode ptr stream
      structEncoder.encodeFields ptr rest true stream

/-- The method `structEncoder.Encode`. -/
def structEncoder.Encode (encoder : structEncoder) (ptr : Pointer) (stream : Stream) : Stream :=
  let stream := stream.WriteObjectStart
  let stream := structEncoder.encodeFields ptr encoder.fields false stream
  let stream := stream.WriteObjectEnd
  match stream.Error with
  | none => stream
  | some GoError.EOF => stream
  | some err =>
    { stream with
      Error := some (GoError.errorString (encoder.typ.name ++ "." ++ err.Error)) }

/-- The method `structEncoder.IsEmpty`. -/
def structEncoder.IsEmpty (_encoder : structEncoder) (_ptr : Pointer) : Bool := false

/-- The method `emptyStructEncoder.Encode`. -/
def emptyStructEncoder.Encode (_ptr : Pointer) (stream : Stream) : Stream :=
  stream.WriteEmptyObject

/-- The method `emptyStructEncoder.IsEmpty`. -/
def emptyStructEncoder.IsEmpty (_ptr : Pointer) : Bool := false

/-! ## Leaf codec selector -/

/-- The codecs `createCheckIsEmpty` returns, one constructor for each type it
instantiates.  `mapEncoder` stands for the value of `encoderOfMap(cfg, "", typ)`,
a function outside the source file. -/
inductive checkIsEmpty where
  | stringCodec | intCodec | int8Codec | int16Codec | int32Codec | int64Codec
  | uintCodec | uint8Codec | uint16Codec | uint32Codec | uintptrCodec | uint64Codec
  | float32Codec | float64Codec | boolCodec
  | dynamicEncoder (typ : GoType)
  | structEncoder (encoder : structEncoder)
  | arrayEncoder | sliceEncoder
  | mapEncoder (typ : GoType)
  | OptionalEncoder
  | lazyErrorEncoder (err : GoError)

/-- The function `createCheckIsEmpty`. -/
def createCheckIsEmpty (_cfg : frozenConfig) (typ : GoType) : checkIsEmpty :=
  match typ.kind with
  | Kind.String => checkIsEmpty.stringCodec
  | Kind.Int => checkIsEmpty.intCodec
  | Kind.Int8 => checkIsEmpty.int8Codec
  | Kind.Int16 => checkIsEmpty.int16Codec
  | Kind.Int32 => checkIsEmpty.int32Codec
  | Kind.Int64 => checkIsEmpty.int64Codec
  | Kind.Uint => checkIsEmpty.uintCodec
  | Kind.Uint8 => checkIsEmpty.uint8Codec
  | Kind.Uint16 => checkIsEmpty.uint16Codec
  | Kind.Uint32 => checkIsEmpty.uint32Codec
  | Kind.Uintptr => checkIsEmpty.uintptrCodec
  | Kind.Uint64 => checkIsEmpty.uint64Codec
  | Kind.Float32 => checkIsEmpty.float32Codec
  | Kind.Float64 => checkIsEmpty.float64Codec
  | Kind.Bool => checkIsEmpty.boolCodec
  | Kind.Interface => checkIsEmpty.dynamicEncoder typ
  | Kind.Struct => checkIsEmpty.structEncoder { typ := typ, fields := [] }
  | Kind.Array => checkIsEmpty.arrayEncoder
  | Kind.Slice => checkIsEmpty.sliceEncoder
  | Kind.Map => checkIsEmpty.mapEncoder typ
  | Kind.Ptr => checkIsEmpty.OptionalEncoder
  | _ => checkIsEmpty.lazyErrorEncoder (GoError.errorString ("unsupported type: " ++ typ.name))

/-- Modelled from the spec: the method `lazyErrorEncoder.Encode` of the
permanently-failing codec, which is not part of the source file; invoking it
always reports the stored error. -/
def lazyErrorEncoder.Encode (err : GoError) (_ptr : Pointer) (stream : Stream) : Stream :=
  { stream with Error := some err }

/-- Modelled from the spec: the method `lazyErrorEncoder.IsEmpty`, which is not
part of the source file; the permanently-failing codec is never empty. -/
def lazyErrorEncoder.IsEmpty (_err : GoError) (_ptr : Pointer) : Bool := false

/-- The permanently-failing codec seen through the interface `ValEncoder`. -/
def lazyErrorEncoder.asValEncoder (err : GoError) : ValEncoder :=
  { Encode := lazyErrorEncoder.Encode err
    IsEmpty := lazyErrorEncoder.IsEmpty err
    IsEmbeddedPtrNil := none }

/-- A struct plan seen through the interface `ValEncoder` (it does not
implement `IsEmbeddedPtrNil`). -/
def structEncoder.asValEncoder (encoder : structEncoder) : ValEncoder :=
  { Encode := encoder.Encode
    IsEmpty := encoder.IsEmpty
    IsEmbeddedPtrNil := none }

/-! ## String-mode adapter for numbers -/

/-- The adapter `stringModeNumberEncoder`. -/
structure stringModeNumberEncoder where
  elemEncoder : ValEncoder

/-- The method `stringModeNumberEncoder.Encode`. -/
def stringModeNumberEncoder.Encode (encoder : stringModeNumberEncoder) (ptr : Pointer)
    (stream : Stream) : Stream :=
  let stream := stream.writeByte '"'
  let stream := encoder.elemEncoder.Encode ptr stream
  stream.writeByte '"'

/-- The method `stringModeNumberEncoder.IsEmpty`. -/
def stringModeNumberEncoder.IsEmpty (encoder : stringModeNumberEncoder) (ptr : Pointer) : Bool :=
  encoder.elemEncoder.IsEmpty ptr

/-! ## Vocabulary of the properties -/

/-- The kinds the selector handles with a working codec, as the specification
lists them: string, the signed and unsigned integer kinds, uintptr, the two
float kinds, bool, interface, struct, array, slice, map and pointer. -/
def specHandledKind : Kind → Bool
  | Kind.String => true
  | Kind.Int | Kind.Int8 | Kind.Int16 | Kind.Int32 | Kind.Int64 => true
  | Kind.Uint | Kind.Uint8 | Kind.Uint16 | Kind.Uint32 | Kind.Uint64 => true
  | Kind.Uintptr => true
  | Kind.Float32 | Kind.Float64 => true
  | Kind.Bool => true
  | Kind.Interface | Kind.Struct | Kind.Array | Kind.Slice | Kind.Map | Kind.Ptr => true
  | _ => false

/-- A message after each of the given dispatchers, in turn, has put its field
name in front of it: the first name of the list is the innermost. -/
def prefixedBy (names : List String) (msg : String) : String :=
  names.foldl (fun acc name => name ++ ": " ++ acc) msg

/-- The survivors of a list of recorded candidates with a given output name,
counted. -/
def liveCount (toName : String) (l : List bindingTo) : Nat :=
  l.countP (fun b => !b.ignored && b.toName == toName)

/-- The recorded candidates with a given output name, counted. -/
def nameCount (toName : String) (l : List bindingTo) : Nat :=
  l.countP (fun b => b.toName == toName)


/-- Whether a binding carries an explicit name tag under the configured key
(the test `Field.Tag.Get(cfg.getTagKey()) != ""` of the resolver). -/
def Binding.tagged (cfg : frozenConfig) (b : Binding) : Bool :=
  b.Field.Tag.Get cfg.getTagKey != ""

/-- The embedding depth of a binding: `len(levels)`. -/
def Binding.depth (b : Binding) : Nat := b.levels.length

/-- The output names of a plan, each with the name of the source field it is
bound to. -/
def StructPlan.boundNames (plan : StructPlan) : List (String × String) :=
  plan.fields.map (fun f => (f.encoder.field.Name, f.toName))

/-- The output names of a plan, in emission order. -/
def StructPlan.toNames (plan : StructPlan) : List String :=
  plan.fields.map (fun f => f.toName)

/-! ## Sample inputs -/

/-- A configuration with the tag key `json`. -/
def sampleConfig : frozenConfig := { tagKey := "json" }

/-- A leaf codec that appends a fixed text and reports a fixed emptiness. -/
def sampleCodec (out : String) (empty : Bool) : ValEncoder :=
  { Encode := fun _ stream => { stream with buf := stream.buf ++ out }
    IsEmpty := fun _ => empty
    IsEmbeddedPtrNil := none }

/-- A binding of the field `name` with the given tag value under `json` (no
tag when the value is empty), path and single output name. -/
def sampleBinding (name tag : String) (levels : List Int) (toName : String) : Binding :=
  let field : StructField :=
    { Name := name, Tag := { pairs := if tag == "" then [] else [("json", tag)] }, Offset := 0 }
  { levels := levels
    Field := field
    ToNames := [toName]
    Encoder := { field := field, fieldEncoder := sampleCodec "1" false, omitempty := false } }

/-- The plan entry a candidate becomes when it survives. -/
def candidateField (c : Binding × String) : structFieldTo :=
  { encoder := c.1.Encoder, toName := c.2 }

/-- The binding and output name of a recorded candidate. -/
def bindingTo.key (b : bindingTo) : Binding × String := (b.binding, b.toName)

/-- Precedence as the specification words it: `a` beats `b` when `a` is tagged
and `b` is not, or when they have the same tag status and `a` is strictly
shallower. -/
def specBeats (cfg : frozenConfig) (a b : Binding) : Bool :=
  (a.tagged cfg && !b.tagged cfg) || (a.tagged cfg == b.tagged cfg && a.depth < b.depth)

/-- The winners as the specification words them: the candidates that beat
every other candidate with the same output name (a tie drops both, since
neither beats the other). -/
def specWinners (cfg : frozenConfig) (cs : List (Binding × String)) : List (Binding × String) :=
  (cs.enum.filter (fun ic =>
    cs.enum.all (fun jd => jd.1 == ic.1 || jd.2.2 != ic.2.2 || specBeats cfg ic.2.1 jd.2.1))).map
    Prod.snd

/-- The skip test of the field loop of `structEncoder.Encode`, as the
specification words it: the omission flag is set and the field is empty, or the
field is a nil embedded pointer. -/
def specSkipped (ptr : Pointer) (field : structFieldTo) : Bool :=
  (field.encoder.omitempty && field.encoder.IsEmpty ptr) || field.encoder.IsEmbeddedPtrNil ptr

/-- The fields of a plan that are emitted for an instance, in plan order. -/
def specEmitted (encoder : structEncoder) (ptr : Pointer) : List structFieldTo :=
  encoder.fields.filter (fun field => !specSkipped ptr field)

/-- One entry: the output name, then the value as the field dispatcher encodes
it. -/
def specEntry (ptr : Pointer) (field : structFieldTo) (stream : Stream) : Stream :=
  field.encoder.Encode ptr (stream.WriteObjectField field.toName)

/-- The entries of the given fields with one separator between consecutive
entries, none before the first and none after the last. -/
def specEntries (ptr : Pointer) : List structFieldTo → Stream → Stream
  | [], stream => stream
  | [field], stream => specEntry ptr field stream
  | field :: next :: rest, stream =>
    specEntries ptr (next :: rest) (specEntry ptr field stream).WriteMore

/-- Entries each preceded by a separator: what the field loop does once
`isNotFirst` is set. -/
def separatedEntries (ptr : Pointer) (fields : List structFieldTo) (stream : Stream) : Stream :=
  fields.foldl (fun acc field => specEntry ptr field acc.WriteMore) stream

/-- The text of one entry whose value is `value`. -/
def entryText (toName value : String) : String :=
  ("\"" ++ toName ++ "\":") ++ value

/-- A plan entry for the field `name`, emitted under the same name, whose leaf
codec appends `out`. -/
def sampleField (name out : String) (empty omitempty : Bool)
    (isEmbeddedPtrNil : Option (Pointer → Bool)) : structFieldTo :=
  { encoder :=
      { field := { Name := name, Tag := { pairs := [] }, Offset := 8 }
        fieldEncoder := { sampleCodec out empty with IsEmbeddedPtrNil := isEmbeddedPtrNil }
        omitempty := omitempty }
    toName := name }

/-- A plan of four fields: `a` is always emitted, `b` is omitted when empty and
is empty, `c` is a nil embedded pointer, `d` is empty but has no omission
flag. -/
def samplePlan : structEncoder :=
  { typ := { name := "T" }
    fields := [sampleField "a" "1" false false none, sampleField "b" "0" true true none,
               sampleField "c" "null" false false (some (fun _ => true)),
               sampleField "d" "\"\"" true false none] }

/-- The text the leaf codec of each field of `samplePlan` appends. -/
def sampleValue (field : structFieldTo) : String :=
  if field.toName == "a" then "1"
  else if field.toName == "b" then "0"
  else if field.toName == "c" then "null"
  else "\"\""

/-- A channel type, whose kind the selector does not handle. -/
def sampleChanType : GoType := { name := "chan int", kind := Kind.Chan }

/-- The leaf codec of a sample field of the given type: the permanently-failing
codec with the stored error when the selector returns that variant, and a codec
that appends `0` otherwise. -/
def sampleLeaf (typ : GoType) : ValEncoder :=
  match createCheckIsEmpty sampleConfig typ with
  | checkIsEmpty.lazyErrorEncoder err => lazyErrorEncoder.asValEncoder err
  | _ => sampleCodec "0" false

/-- A plan entry for the field `name` of the given type, emitted under the same
name, with the leaf codec `sampleLeaf` selects. -/
def sampleTypedField (name : String) (typ : GoType) : structFieldTo :=
  { encoder :=
      { field := { Name := name, Tag := { pairs := [] }, Offset := 8 }
        fieldEncoder := sampleLeaf typ
        omitempty := false }
    toName := name }

/-- A plan whose first field is of a channel type and whose second field
encodes without error. -/
def sampleFailingPlan : structEncoder :=
  { typ := { name := "T" }
    fields := [sampleTypedField "a" sampleChanType, sampleField "b" "1" false false none] }

/-- A plan whose only emitted field is of a channel type. -/
def sampleFailingLastPlan : structEncoder :=
  { typ := { name := "T" }
    fields := [sampleField "b" "1" false false none, sampleTypedField "a" sampleChanType] }

/-- A plan whose two fields are both skipped: `b` is empty with the omission
flag, `c` is a nil embedded pointer. -/
def sampleSkippedPlan : structEncoder :=
  { typ := { name := "T" }
    fields := [sampleField "b" "0" true true none,
               sampleField "c" "null" false false (some (fun _ => true))] }

/-- A leaf codec that reports the end of the stream. -/
def sampleEOFCodec : ValEncoder :=
  { Encode := fun _ stream => { stream with Error := some GoError.EOF }
    IsEmpty := fun _ => false
    IsEmbeddedPtrNil := none }

/-! ## Conflict resolver: properties -/

/-- A tagged new binding against an untagged old one: the old one is ignored,
whatever the depths. -/
theorem resolveConflictBinding_new_tagged_old_untagged (cfg : frozenConfig) (old new : Binding)
    (hnew : new.tagged cfg = true) (hold : old.tagged cfg = false) :
    resolveConflictBinding cfg old new = (true, false) := by
  unfold Binding.tagged at hnew hold
  unfold resolveConflictBinding
  simp [hnew, hold]

/-- An untagged new binding against a tagged old one: the result is again
`(true, false)`, whatever the depths. -/
theorem resolveConflictBinding_new_untagged_old_tagged (cfg : frozenConfig) (old new : Binding)
    (hnew : new.tagged cfg = false) (hold : old.tagged cfg = true) :
    resolveConflictBinding cfg old new = (true, false) := by
  unfold Binding.tagged at hnew hold
  unfold resolveConflictBinding
  simp [hnew, hold]

/-- For two bindings of equal tag status, exchanging them exchanges the two
flags. -/
theorem resolveConflictBinding_swap_of_equal_tag_status (cfg : frozenConfig) (a b : Binding)
    (h : a.tagged cfg = b.tagged cfg) :
    resolveConflictBinding cfg b a
      = ((resolveConflictBinding cfg a b).2, (resolveConflictBinding cfg a b).1) := by
  unfold Binding.tagged at h
  unfold resolveConflictBinding
  simp only [h]
  by_cases ht : (b.Field.Tag.Get cfg.getTagKey != "") = true
  · simp only [ht, if_true]
    split_ifs <;> first | rfl | omega
  · simp only [ht, if_false]
    split_ifs <;> first | rfl | omega

/-- C3: with the old binding tagged and the new one untagged (both at depth 1)
`resolveConflictBinding` returns `(ignoreOld, ignoreNew) = (true, false)`: the
tagged binding is the one ignored. -/
theorem resolveConflictBinding_old_tagged_ignored :
    (sampleBinding "A" "X" [0] "X").tagged sampleConfig = true ∧
    (sampleBinding "X" "" [1] "X").tagged sampleConfig = false ∧
    resolveConflictBinding sampleConfig
      (sampleBinding "A" "X" [0] "X") (sampleBinding "X" "" [1] "X") = (true, false) := by
  decide

/-- C4: for two bindings of equal tag status, `resolveConflictBinding` ignores
the strictly deeper one and keeps the other, and ignores both when the depths
are equal. -/
theorem resolveConflictBinding_equal_tag_status (cfg : frozenConfig) (old new : Binding)
    (h : old.tagged cfg = new.tagged cfg) :
    (old.depth > new.depth → resolveConflictBinding cfg old new = (true, false)) ∧
    (new.depth > old.depth → resolveConflictBinding cfg old new = (false, true)) ∧
    (old.depth = new.depth → resolveConflictBinding cfg old new = (true, true)) := by
  unfold Binding.tagged at h
  unfold Binding.depth resolveConflictBinding
  simp only [h]
  refine ⟨fun h1 => ?_, fun h2 => ?_, fun h3 => ?_⟩
  · have h1' : ¬ (new.levels.length > old.levels.length) := by omega
    by_cases ht : (new.Field.Tag.Get cfg.getTagKey != "") = true <;> simp [ht, h1]
  · have h2' : ¬ (old.levels.length > new.levels.length) := by omega
    by_cases ht : (new.Field.Tag.Get cfg.getTagKey != "") = true <;> simp [ht, h2, h2']
  · by_cases ht : (new.Field.Tag.Get cfg.getTagKey != "") = true <;> simp [ht, h3]

/-- Witness of C4 on two untagged bindings, the old one deeper. -/
theorem resolveConflictBinding_equal_tag_status_witness :
    (sampleBinding "A" "" [0, 0] "X").tagged sampleConfig
        = (sampleBinding "X" "" [1] "X").tagged sampleConfig ∧
    ((sampleBinding "A" "" [0, 0] "X").depth > (sampleBinding "X" "" [1] "X").depth →
      resolveConflictBinding sampleConfig
        (sampleBinding "A" "" [0, 0] "X") (sampleBinding "X" "" [1] "X") = (true, false)) :=
  ⟨by decide,
   (resolveConflictBinding_equal_tag_status sampleConfig
      (sampleBinding "A" "" [0, 0] "X") (sampleBinding "X" "" [1] "X") (by decide)).1⟩

/-- C5: for a tagged binding `a` and an untagged binding `b`,
`resolveConflictBinding a b` and `resolveConflictBinding b a` are both
`(true, false)`: the second is not the first with its components swapped, and
`a` is ignored as the old binding but kept as the new one. -/
theorem resolveConflictBinding_order_dependent :
    resolveConflictBinding sampleConfig
      (sampleBinding "A" "X" [0] "X") (sampleBinding "X" "" [1] "X") = (true, false) ∧
    resolveConflictBinding sampleConfig
      (sampleBinding "X" "" [1] "X") (sampleBinding "A" "X" [0] "X") = (true, false) := by
  decide

/-- C6: `resolveConflictBinding` returns `(true, false)`, `(false, true)` or
`(true, true)`, and never `(false, false)`. -/
theorem resolveConflictBinding_never_keeps_both (cfg : frozenConfig) (old new : Binding) :
    (resolveConflictBinding cfg old new = (true, false) ∨
      resolveConflictBinding cfg old new = (false, true) ∨
      resolveConflictBinding cfg old new = (true, true)) ∧
    resolveConflictBinding cfg old new ≠ (false, false) := by
  unfold resolveConflictBinding
  simp only []
  split_ifs <;> simp

/-! ## Plan assembler: properties -/

theorem resolveAgainst_keys (cfg : frozenConfig) (l : List bindingTo) (new : bindingTo) :
    (resolveAgainst cfg l new).1.map bindingTo.key = l.map bindingTo.key ∧
    (resolveAgainst cfg l new).2.key = new.key := by
  induction l generalizing new with
  | nil => simp [resolveAgainst]
  | cons old rest ih =>
    unfold resolveAgainst
    by_cases hn : (old.toName != new.toName) = true
    · simp only [hn, if_true, List.map_cons]
      exact ⟨by rw [(ih new).1], (ih new).2⟩
    · simp only [hn, List.map_cons]
      have h := ih { new with ignored := (resolveConflictBinding cfg old.binding new.binding).2 }
      refine ⟨?_, ?_⟩
      · simp only [Bool.false_eq_true, if_false, List.map_cons]
        rw [h.1]
        rfl
      · simp only [Bool.false_eq_true, if_false]
        rw [h.2]
        rfl

theorem addCandidate_keys (cfg : frozenConfig) (acc : List bindingTo) (binding : Binding)
    (toName : String) :
    (addCandidate cfg acc binding toName).map bindingTo.key
      = acc.map bindingTo.key ++ [(binding, toName)] := by
  unfold addCandidate
  simp only [List.map_append, List.map_cons, List.map_nil]
  rw [(resolveAgainst_keys cfg acc _).1, (resolveAgainst_keys cfg acc _).2]
  rfl

theorem foldl_addCandidate_keys (cfg : frozenConfig) (binding : Binding) (names : List String)
    (acc : List bindingTo) :
    (names.foldl (fun acc toName => addCandidate cfg acc binding toName) acc).map bindingTo.key
      = acc.map bindingTo.key ++ names.map (fun toName => (binding, toName)) := by
  induction names generalizing acc with
  | nil => simp
  | cons n rest ih =>
    simp only [List.foldl_cons, List.map_cons]
    rw [ih, addCandidate_keys]
    simp

theorem foldl_addBinding_keys (cfg : frozenConfig) (fields : List Binding)
    (acc : List bindingTo) :
    (fields.foldl (fun acc binding => addBinding cfg acc binding) acc).map bindingTo.key
      = acc.map bindingTo.key ++ candidates fields := by
  induction fields generalizing acc with
  | nil => simp [candidates]
  | cons b rest ih =>
    simp only [List.foldl_cons]
    rw [ih]
    unfold addBinding
    rw [foldl_addCandidate_keys]
    simp [candidates]

/-- The recorded candidates are the candidate list in discovery order, whatever
their flags. -/
theorem orderedBindings_keys (cfg : frozenConfig) (fields : List Binding) :
    (orderedBindings cfg fields).map bindingTo.key = candidates fields := by
  unfold orderedBindings
  rw [foldl_addBinding_keys]
  simp

theorem finalOrderedFields_sublist (l : List bindingTo) :
    (finalOrderedFields l).Sublist ((l.map bindingTo.key).map candidateField) := by
  induction l with
  | nil => simp [finalOrderedFields]
  | cons b rest ih =>
    unfold finalOrderedFields
    by_cases hb : b.ignored = true
    · simp only [hb, Bool.not_true, Bool.false_eq_true, if_false, List.map_cons]
      exact List.Sublist.cons _ ih
    · simp only [hb, Bool.not_false, if_true, List.map_cons]
      exact List.Sublist.cons₂ _ ih

/-- C8: the field list of the plan built by `encoderOfStruct` is a subsequence
of the candidate list in discovery order (bindings in descriptor order, within
a binding its output names in order), each candidate seen as the plan entry it
would become. -/
theorem encoderOfStruct_fields_sublist_candidates (cfg : frozenConfig) (typ : GoType)
    (structDescriptor : StructDescriptor) :
    (encoderOfStruct cfg typ structDescriptor).fields.Sublist
      ((candidates structDescriptor.Fields).map candidateField) := by
  unfold encoderOfStruct
  by_cases h : ((orderedBindings cfg structDescriptor.Fields).length == 0) = true
  · simp [h, StructPlan.fields]
  · simp only [h, Bool.false_eq_true, if_false, StructPlan.fields]
    rw [← orderedBindings_keys cfg]
    exact finalOrderedFields_sublist _

/-- C9, as stated, fails: for two untagged bindings of equal depth with the
same output name the final list of non-ignored candidates is empty, and
`encoderOfStruct` returns a `structEncoder` with zero fields, not the
empty-object encoder. -/
theorem encoderOfStruct_all_ignored_not_emptyStructEncoder :
    finalOrderedFields (orderedBindings sampleConfig
        [sampleBinding "A" "" [0] "X", sampleBinding "B" "" [1] "X"]) = [] ∧
    encoderOfStruct sampleConfig { name := "T" }
        { Fields := [sampleBinding "A" "" [0] "X", sampleBinding "B" "" [1] "X"] }
      = StructPlan.structEncoder { typ := { name := "T" }, fields := [] } ∧
    encoderOfStruct sampleConfig { name := "T" }
        { Fields := [sampleBinding "A" "" [0] "X", sampleBinding "B" "" [1] "X"] }
      ≠ StructPlan.emptyStructEncoder := by
  refine ⟨rfl, rfl, ?_⟩
  intro h
  have h2 : encoderOfStruct sampleConfig { name := "T" }
        { Fields := [sampleBinding "A" "" [0] "X", sampleBinding "B" "" [1] "X"] }
      = StructPlan.structEncoder { typ := { name := "T" }, fields := [] } := rfl
  rw [h2] at h
  cases h

/-- C9 (amended): `encoderOfStruct` returns the empty-object encoder exactly
when the candidate list (before any candidate is ignored) is empty; when there
are candidates it returns a `structEncoder` holding the non-ignored ones, also
when none is left. -/
theorem encoderOfStruct_emptyStructEncoder_iff (cfg : frozenConfig) (typ : GoType)
    (structDescriptor : StructDescriptor) :
    (encoderOfStruct cfg typ structDescriptor = StructPlan.emptyStructEncoder ↔
      candidates structDescriptor.Fields = []) ∧
    (candidates structDescriptor.Fields ≠ [] →
      encoderOfStruct cfg typ structDescriptor = StructPlan.structEncoder
        { typ := typ
          fields := finalOrderedFields (orderedBindings cfg structDescriptor.Fields) }) := by
  have hk := orderedBindings_keys cfg structDescriptor.Fields
  have hlen : (orderedBindings cfg structDescriptor.Fields).length
      = (candidates structDescriptor.Fields).length := by
    rw [← hk, List.length_map]
  unfold encoderOfStruct
  by_cases h : candidates structDescriptor.Fields = []
  · have h0 : (orderedBindings cfg structDescriptor.Fields).length = 0 := by
      rw [hlen, h]; rfl
    simp [h, h0]
  · have h0 : (orderedBindings cfg structDescriptor.Fields).length ≠ 0 := by
      rw [hlen]
      exact fun hc => h (List.length_eq_zero.mp hc)
    simp [h, h0]

/-- Witness of C9 (amended) on a descriptor with one binding. -/
theorem encoderOfStruct_emptyStructEncoder_iff_witness :
    encoderOfStruct sampleConfig { name := "T" } { Fields := [sampleBinding "A" "" [0] "X"] }
      = StructPlan.structEncoder
        { typ := { name := "T" }
          fields := finalOrderedFields
            (orderedBindings sampleConfig [sampleBinding "A" "" [0] "X"]) } :=
  (encoderOfStruct_emptyStructEncoder_iff sampleConfig { name := "T" }
    { Fields := [sampleBinding "A" "" [0] "X"] }).2 (by simp [candidates, sampleBinding])

/-- C2: for three untagged bindings with the output name `X`, two at depth 2
followed by one at depth 3, the plan built by `encoderOfStruct` has the output
names `X`, `X`: they are not pairwise distinct. -/
theorem encoderOfStruct_duplicate_toName :
    (encoderOfStruct sampleConfig { name := "T" }
        { Fields := [sampleBinding "A" "" [0, 0] "X", sampleBinding "B" "" [1, 0] "X",
                     sampleBinding "C" "" [2, 0, 0] "X"] }).toNames = ["X", "X"] ∧
    ¬ (encoderOfStruct sampleConfig { name := "T" }
        { Fields := [sampleBinding "A" "" [0, 0] "X", sampleBinding "B" "" [1, 0] "X",
                     sampleBinding "C" "" [2, 0, 0] "X"] }).toNames.Nodup := by
  decide

/-- C7: the bindings `A` and `B` have the same output name, equal depth and
equal tag status, a third binding `C` of the same name is deeper, and both `A`
and `B` appear under that name in the field list built by `encoderOfStruct`. -/
theorem encoderOfStruct_tied_bindings_survive :
    (sampleBinding "A" "" [0, 0] "X").depth = (sampleBinding "B" "" [1, 0] "X").depth ∧
    (sampleBinding "A" "" [0, 0] "X").tagged sampleConfig
      = (sampleBinding "B" "" [1, 0] "X").tagged sampleConfig ∧
    (encoderOfStruct sampleConfig { name := "T" }
        { Fields := [sampleBinding "A" "" [0, 0] "X", sampleBinding "B" "" [1, 0] "X",
                     sampleBinding "C" "" [2, 0, 0] "X"] }).boundNames
      = [("A", "X"), ("B", "X")] := by
  decide

/-- C1: on a tagged binding `A` followed by an untagged binding `X` of the same
depth and output name, the plan built by `encoderOfStruct` holds the untagged
one while the winner under the precedence rules is the tagged one; and the
surviving names depend on the order: two tied bindings followed by a deeper one
give the names `X`, `X`, the same three bindings with the deeper one first give
no name at all. -/
theorem encoderOfStruct_not_the_winners :
    (encoderOfStruct sampleConfig { name := "T" }
        { Fields := [sampleBinding "A" "X" [0] "X", sampleBinding "X" "" [1] "X"] }).boundNames
      = [("X", "X")] ∧
    (specWinners sampleConfig
        (candidates [sampleBinding "A" "X" [0] "X", sampleBinding "X" "" [1] "X"])).map
        (fun c => (c.1.Field.Name, c.2))
      = [("A", "X")] ∧
    (encoderOfStruct sampleConfig { name := "T" }
        { Fields := [sampleBinding "A" "" [0, 0] "X", sampleBinding "B" "" [1, 0] "X",
                     sampleBinding "C" "" [2, 0, 0] "X"] }).toNames = ["X", "X"] ∧
    (encoderOfStruct sampleConfig { name := "T" }
        { Fields := [sampleBinding "C" "" [2, 0, 0] "X", sampleBinding "A" "" [0, 0] "X",
                     sampleBinding "B" "" [1, 0] "X"] }).toNames = [] := by
  decide

/-! ## Struct plan: properties -/

theorem specEntries_cons (ptr : Pointer) (field : structFieldTo) (rest : List structFieldTo)
    (stream : Stream) :
    specEntries ptr (field :: rest) stream
      = separatedEntries ptr rest (specEntry ptr field stream) := by
  induction rest generalizing field stream with
  | nil => simp [specEntries, separatedEntries]
  | cons next rest ih =>
    rw [specEntries, ih]
    simp [separatedEntries]

theorem encodeFields_isNotFirst (ptr : Pointer) (fields : List structFieldTo)
    (stream : Stream) :
    structEncoder.encodeFields ptr fields true stream
      = separatedEntries ptr (fields.filter (fun field => !specSkipped ptr field)) stream := by
  induction fields generalizing stream with
  | nil => simp [structEncoder.encodeFields, separatedEntries]
  | cons field rest ih =>
    unfold structEncoder.encodeFields
    by_cases h1 : (field.encoder.omitempty && field.encoder.IsEmpty ptr) = true
    · have hs : specSkipped ptr field = true := by simp [specSkipped, h1]
      simp only [h1, if_true, List.filter_cons, hs, Bool.not_true, Bool.false_eq_true, if_false]
      exact ih stream
    · by_cases h2 : field.encoder.IsEmbeddedPtrNil ptr = true
      · have hs : specSkipped ptr field = true := by simp [specSkipped, h2]
        simp only [h1, h2, if_true, List.filter_cons, hs, Bool.not_true, Bool.false_eq_true,
          if_false]
        exact ih stream
      · have hs : specSkipped ptr field = false := by
          simp only [Bool.not_eq_true] at h1 h2
          simp [specSkipped, h1, h2]
        simp only [h1, h2, if_true, List.filter_cons, hs, Bool.not_false, Bool.false_eq_true,
          if_false]
        rw [ih]
        simp [separatedEntries, specEntry]

theorem encodeFields_first (ptr : Pointer) (fields : List structFieldTo) (stream : Stream) :
    structEncoder.encodeFields ptr fields false stream
      = specEntries ptr (fields.filter (fun field => !specSkipped ptr field)) stream := by
  induction fields generalizing stream with
  | nil => simp [structEncoder.encodeFields, specEntries]
  | cons field rest ih =>
    unfold structEncoder.encodeFields
    by_cases h1 : (field.encoder.omitempty && field.encoder.IsEmpty ptr) = true
    · have hs : specSkipped ptr field = true := by simp [specSkipped, h1]
      simp only [h1, if_true, List.filter_cons, hs, Bool.not_true, Bool.false_eq_true, if_false]
      exact ih stream
    · by_cases h2 : field.encoder.IsEmbeddedPtrNil ptr = true
      · have hs : specSkipped ptr field = true := by simp [specSkipped, h2]
        simp only [h1, h2, if_true, List.filter_cons, hs, Bool.not_true, Bool.false_eq_true,
          if_false]
        exact ih stream
      · have hs : specSkipped ptr field = false := by
          simp only [Bool.not_eq_true] at h1 h2
          simp [specSkipped, h1, h2]
        simp only [h1, h2, if_true, List.filter_cons, hs, Bool.not_false, Bool.false_eq_true,
          if_false]
        rw [encodeFields_isNotFirst, specEntries_cons]
        simp [specEntry]

theorem structEncoder_Encode_buf (encoder : structEncoder) (ptr : Pointer) (stream : Stream) :
    (encoder.Encode ptr stream).buf
      = (structEncoder.encodeFields ptr encoder.fields false stream.WriteObjectStart).buf
        ++ "\x7d" := by
  unfold structEncoder.Encode
  simp only []
  split <;> simp [Stream.WriteObjectEnd]

theorem structFieldEncoder_Encode_buf (encoder : structFieldEncoder) (ptr : Pointer)
    (stream : Stream) :
    (encoder.Encode ptr stream).buf
      = (encoder.fieldEncoder.Encode (encoder.fieldPtr ptr) stream).buf := by
  unfold structFieldEncoder.Encode
  simp only []
  split <;> simp

theorem intercalate_go_append (pre acc sep : String) (l : List String) :
    String.intercalate.go (pre ++ acc) sep l = pre ++ String.intercalate.go acc sep l := by
  induction l generalizing acc with
  | nil => simp [String.intercalate.go]
  | cons a rest ih =>
    simp only [String.intercalate.go]
    rw [String.append_assoc pre acc sep, String.append_assoc pre (acc ++ sep) a, ih]

theorem separatedEntries_buf (ptr : Pointer) (value : structFieldTo → String)
    (fields : List structFieldTo)
    (h : ∀ field ∈ fields, ∀ stream : Stream,
      (field.encoder.fieldEncoder.Encode (field.encoder.fieldPtr ptr) stream).buf
        = stream.buf ++ value field)
    (stream : Stream) :
    (separatedEntries ptr fields stream).buf
      = String.intercalate.go stream.buf ","
          (fields.map (fun field => entryText field.toName (value field))) := by
  induction fields generalizing stream with
  | nil => simp [separatedEntries, String.intercalate.go]
  | cons field rest ih =>
    have hrest : ∀ f ∈ rest, ∀ stream : Stream,
        (f.encoder.fieldEncoder.Encode (f.encoder.fieldPtr ptr) stream).buf
          = stream.buf ++ value f := fun f hf => h f (List.mem_cons_of_mem _ hf)
    have ih2 := ih hrest (specEntry ptr field stream.WriteMore)
    simp only [separatedEntries, List.foldl_cons, List.map_cons, String.intercalate.go] at ih2 ⊢
    rw [ih2]
    congr 1
    rw [specEntry, structFieldEncoder_Encode_buf, h field (List.mem_cons_self _ _)]
    simp [Stream.WriteObjectField, Stream.WriteMore, entryText, String.append_assoc]

theorem specEntries_buf (ptr : Pointer) (value : structFieldTo → String)
    (fields : List structFieldTo)
    (h : ∀ field ∈ fields, ∀ stream : Stream,
      (field.encoder.fieldEncoder.Encode (field.encoder.fieldPtr ptr) stream).buf
        = stream.buf ++ value field)
    (stream : Stream) :
    (specEntries ptr fields stream).buf
      = stream.buf ++ String.intercalate ","
          (fields.map (fun field => entryText field.toName (value field))) := by
  cases fields with
  | nil => simp [specEntries, String.intercalate]
  | cons field rest =>
    rw [specEntries_cons, separatedEntries_buf ptr value rest
      (fun f hf => h f (List.mem_cons_of_mem _ hf))]
    simp only [List.map_cons, String.intercalate]
    rw [← intercalate_go_append]
    congr 1
    rw [specEntry, structFieldEncoder_Encode_buf, h field (List.mem_cons_self _ _)]
    simp [Stream.WriteObjectField, entryText, String.append_assoc]

/-- C10: `structEncoder.Encode` writes `{`, then the entries of exactly the
fields that are not skipped (skipped: omission flag set and empty, or nil
embedded pointer), in plan order, with one `,` between consecutive entries and
none before the first or after the last, then `}`.  Each entry is the output
name written by `WriteObjectField` followed by what the field dispatcher
encodes; when every leaf codec appends the text `value field`, the bytes
appended are `{`, the entries `"<toName>":<value>` joined by `,`, and `}`. -/
theorem structEncoder_Encode_output (encoder : structEncoder) (ptr : Pointer)
    (stream : Stream) :
    (encoder.Encode ptr stream).buf
      = (specEntries ptr (specEmitted encoder ptr) stream.WriteObjectStart).WriteObjectEnd.buf ∧
    ∀ value : structFieldTo → String,
      (∀ field ∈ encoder.fields, ∀ s : Stream,
        (field.encoder.fieldEncoder.Encode (field.encoder.fieldPtr ptr) s).buf
          = s.buf ++ value field) →
      (encoder.Encode ptr stream).buf
        = stream.buf ++ "\x7b"
          ++ String.intercalate ","
              ((specEmitted encoder ptr).map
                (fun field => entryText field.toName (value field)))
          ++ "\x7d" := by
  refine ⟨?_, fun value h => ?_⟩
  · rw [structEncoder_Encode_buf, encodeFields_first]
    simp [Stream.WriteObjectEnd, specEmitted]
  · rw [structEncoder_Encode_buf, encodeFields_first]
    rw [specEntries_buf ptr value _ (fun f hf => h f (List.mem_of_mem_filter hf))]
    simp [Stream.WriteObjectStart, specEmitted]

/-- Witness of C10 on `samplePlan`: of its four fields the second (empty, with
the omission flag) and the third (nil embedded pointer) are skipped. -/
theorem structEncoder_Encode_output_witness :
    (samplePlan.Encode 0 { buf := "", Error := none }).buf = "\x7b\"a\":1,\"d\":\"\"\x7d" :=
  ((structEncoder_Encode_output samplePlan 0 { buf := "", Error := none }).2 sampleValue
    (by
      intro field hf s
      simp only [samplePlan, List.mem_cons, List.mem_singleton, List.not_mem_nil, or_false] at hf
      rcases hf with rfl | rfl | rfl | rfl <;> rfl)).trans (by decide)

/-- C11: when every field of a plan is skipped for an instance (in particular
when the plan has no field), `structEncoder.Encode` appends exactly the two
bytes of an empty object, the same bytes `emptyStructEncoder.Encode` appends to
the same stream. -/
theorem structEncoder_Encode_all_skipped (encoder : structEncoder) (ptr : Pointer)
    (stream : Stream) (h : ∀ field ∈ encoder.fields, specSkipped ptr field = true) :
    (encoder.Encode ptr stream).buf = stream.buf ++ "\x7b\x7d" ∧
    (encoder.Encode ptr stream).buf = (emptyStructEncoder.Encode ptr stream).buf := by
  have hfilter : encoder.fields.filter (fun field => !specSkipped ptr field) = [] := by
    rw [List.filter_eq_nil_iff]
    intro field hf
    simp [h field hf]
  have hbuf : (encoder.Encode ptr stream).buf = stream.buf ++ "\x7b\x7d" := by
    rw [structEncoder_Encode_buf, encodeFields_first, hfilter]
    simp only [specEntries, Stream.WriteObjectStart]
    rw [String.append_assoc]
    rfl
  exact ⟨hbuf, by rw [hbuf]; rfl⟩

/-- Witness of C11 on a plan whose two fields are both skipped: one empty with
the omission flag, one a nil embedded pointer. -/
theorem structEncoder_Encode_all_skipped_witness :
    (sampleSkippedPlan.Encode 0 { buf := "x", Error := none }).buf = "x\x7b\x7d" :=
  (structEncoder_Encode_all_skipped sampleSkippedPlan 0 { buf := "x", Error := none }
    (by
      intro field hf
      simp only [sampleSkippedPlan, List.mem_cons, List.mem_singleton, List.not_mem_nil,
        or_false] at hf
      rcases hf with rfl | rfl <;> rfl)).1.trans (by decide)

/-! ## Error channel: properties -/

/-- C13: the end-of-stream sentinel is passed through unchanged.  If the error
is `io.EOF` once the leaf codec of a field dispatcher has run, the dispatcher
returns the stream the leaf codec left, error `io.EOF`; if the error is
`io.EOF` once the field loop of a struct plan has run, the error is `io.EOF`
after `structEncoder.Encode`.  The leaf codec is arbitrary, so this holds at
every nesting depth. -/
theorem Encode_passes_EOF_through :
    (∀ (encoder : structFieldEncoder) (ptr : Pointer) (stream : Stream),
      (encoder.fieldEncoder.Encode (encoder.fieldPtr ptr) stream).Error = some GoError.EOF →
      encoder.Encode ptr stream = encoder.fieldEncoder.Encode (encoder.fieldPtr ptr) stream ∧
      (encoder.Encode ptr stream).Error = some GoError.EOF) ∧
    (∀ (encoder : structEncoder) (ptr : Pointer) (stream : Stream),
      (structEncoder.encodeFields ptr encoder.fields false stream.WriteObjectStart).Error
        = some GoError.EOF →
      (encoder.Encode ptr stream).Error = some GoError.EOF) := by
  refine ⟨fun encoder ptr stream h => ?_, fun encoder ptr stream h => ?_⟩
  · have heq : encoder.Encode ptr stream
        = encoder.fieldEncoder.Encode (encoder.fieldPtr ptr) stream := by
      unfold structFieldEncoder.Encode
      simp only [h]
    exact ⟨heq, by rw [heq, h]⟩
  · unfold structEncoder.Encode
    simp only [Stream.WriteObjectEnd, h]

/-- Witness of C13 at nesting depth two: the only field of the outer plan holds
an inner plan whose only field reports `io.EOF`; the error after the outer
`Encode` is `io.EOF`. -/
theorem Encode_passes_EOF_through_witness :
    (({ typ := { name := "Outer" }
        fields := [{ encoder :=
                       { field := { Name := "inner", Tag := { pairs := [] }, Offset := 0 }
                         fieldEncoder := structEncoder.asValEncoder
                           { typ := { name := "Inner" }
                             fields := [{ encoder :=
                                            { field := { Name := "x", Tag := { pairs := [] },
                                                         Offset := 0 }
                                              fieldEncoder := sampleEOFCodec
                                              omitempty := false }
                                          toName := "x" }] }
                         omitempty := false }
                     toName := "inner" }] } : structEncoder).Encode 0
        { buf := "", Error := none }).Error = some GoError.EOF :=
  Encode_passes_EOF_through.2 _ 0 { buf := "", Error := none } (by decide)

/-- C14: if the leaf codec of a field dispatcher leaves a non-sentinel error
with message `m` on the stream, the error after `structFieldEncoder.Encode` has
the message `<fieldName>: m`; if the leaf codec leaves no error, there is no
error after `Encode`.  This holds for every stream, so for every stream with no
prior error. -/
theorem structFieldEncoder_Encode_error (encoder : structFieldEncoder) (ptr : Pointer)
    (stream : Stream) :
    (∀ m : String,
      (encoder.fieldEncoder.Encode (encoder.fieldPtr ptr) stream).Error
        = some (GoError.errorString m) →
      (encoder.Encode ptr stream).Error
        = some (GoError.errorString (encoder.field.Name ++ ": " ++ m))) ∧
    ((encoder.fieldEncoder.Encode (encoder.fieldPtr ptr) stream).Error = none →
      (encoder.Encode ptr stream).Error = none) := by
  refine ⟨fun m h => ?_, fun h => ?_⟩
  · unfold structFieldEncoder.Encode
    simp only [h, GoError.Error]
  · unfold structFieldEncoder.Encode
    simp only [h]

/-- Witness of C14 on a field of a channel type, whose leaf codec reports its
stored error. -/
theorem structFieldEncoder_Encode_error_witness :
    ((sampleTypedField "a" sampleChanType).encoder.Encode 0 { buf := "", Error := none }).Error
      = some (GoError.errorString ("a" ++ ": " ++ "unsupported type: chan int")) :=
  (structFieldEncoder_Encode_error (sampleTypedField "a" sampleChanType).encoder 0
    { buf := "", Error := none }).1 "unsupported type: chan int" (by decide)

/-- C19: if the stream carries a non-sentinel error with message `e` before
`structFieldEncoder.Encode` and the leaf codec leaves the error slot as it is,
the error after `Encode` has the message `<fieldName>: e`. -/
theorem structFieldEncoder_Encode_prefixes_prior_error (encoder : structFieldEncoder)
    (ptr : Pointer) (stream : Stream) (e : String)
    (hprior : stream.Error = some (GoError.errorString e))
    (hkeep : (encoder.fieldEncoder.Encode (encoder.fieldPtr ptr) stream).Error = stream.Error) :
    (encoder.Encode ptr stream).Error
      = some (GoError.errorString (encoder.field.Name ++ ": " ++ e)) := by
  rw [hprior] at hkeep
  unfold structFieldEncoder.Encode
  simp only [hkeep, GoError.Error]

/-- Witness of C19 on a field whose leaf codec only appends text, on a stream
that already carries the error `boom`. -/
theorem structFieldEncoder_Encode_prefixes_prior_error_witness :
    ((sampleField "b" "1" false false none).encoder.Encode 0
        { buf := "", Error := some (GoError.errorString "boom") }).Error
      = some (GoError.errorString ("b" ++ ": " ++ "boom")) :=
  structFieldEncoder_Encode_prefixes_prior_error (sampleField "b" "1" false false none).encoder 0
    { buf := "", Error := some (GoError.errorString "boom") } "boom" rfl rfl

/-! ## Leaf codec selector and string-mode adapter: properties -/

/-- C16: `createCheckIsEmpty` returns a codec for every type, and for every
kind outside the handled set the codec is the permanently-failing variant whose
stored error has the message `unsupported type: ` followed by the name of the
type. -/
theorem createCheckIsEmpty_unsupported_kind (cfg : frozenConfig) (typ : GoType) :
    (∃ codec : checkIsEmpty, createCheckIsEmpty cfg typ = codec) ∧
    (specHandledKind typ.kind = false →
      createCheckIsEmpty cfg typ
        = checkIsEmpty.lazyErrorEncoder
            (GoError.errorString ("unsupported type: " ++ typ.name))) := by
  refine ⟨⟨_, rfl⟩, fun h => ?_⟩
  unfold createCheckIsEmpty
  cases hk : typ.kind <;> simp_all [specHandledKind]

/-- Witness of C16 on a channel type. -/
theorem createCheckIsEmpty_unsupported_kind_witness :
    createCheckIsEmpty sampleConfig sampleChanType
      = checkIsEmpty.lazyErrorEncoder
          (GoError.errorString ("unsupported type: " ++ sampleChanType.name)) :=
  (createCheckIsEmpty_unsupported_kind sampleConfig sampleChanType).2 (by decide)

theorem push_quote (s : String) : s.push '"' = s ++ "\"" := by
  apply String.ext
  simp [String.push]

/-- C17: when the inner codec appends the bytes `out` for the value,
`stringModeNumberEncoder.Encode` appends a double quote, then `out`, then a
double quote, and leaves the error slot as the inner codec left it;
`stringModeNumberEncoder.IsEmpty` returns what the inner codec's `IsEmpty`
returns. -/
theorem stringModeNumberEncoder_quotes (encoder : stringModeNumberEncoder) (ptr : Pointer)
    (stream : Stream) (out : String)
    (h : (encoder.elemEncoder.Encode ptr (stream.writeByte '"')).buf
      = (stream.writeByte '"').buf ++ out) :
    (encoder.Encode ptr stream).buf = stream.buf ++ "\"" ++ out ++ "\"" ∧
    (encoder.Encode ptr stream).Error
      = (encoder.elemEncoder.Encode ptr (stream.writeByte '"')).Error ∧
    encoder.IsEmpty ptr = encoder.elemEncoder.IsEmpty ptr := by
  refine ⟨?_, rfl, rfl⟩
  simp only [stringModeNumberEncoder.Encode, Stream.writeByte] at h ⊢
  rw [h, push_quote, push_quote]

/-- Witness of C17 on an inner codec that appends `12`. -/
theorem stringModeNumberEncoder_quotes_witness :
    (({ elemEncoder := sampleCodec "12" false } : stringModeNumberEncoder).Encode 0
        { buf := "x", Error := none }).buf = "x\"12\"" :=
  (stringModeNumberEncoder_quotes { elemEncoder := sampleCodec "12" false } 0
    { buf := "x", Error := none } "12" (by decide)).1.trans (by decide)

/-! ## Plan assembler: names carried by at most two candidates -/

theorem resolveConflictBinding_flags_or (cfg : frozenConfig) (old new : Binding) :
    (resolveConflictBinding cfg old new).1 = true ∨
      (resolveConflictBinding cfg old new).2 = true := by
  unfold resolveConflictBinding
  simp only []
  split_ifs <;> simp

theorem liveCount_le_nameCount (m : String) (l : List bindingTo) :
    liveCount m l ≤ nameCount m l := by
  induction l with
  | nil => simp [liveCount, nameCount]
  | cons b rest ih =>
    simp only [liveCount, nameCount, List.countP_cons] at ih ⊢
    by_cases hb : (b.toName == m) = true
    · by_cases hi : b.ignored = true <;> simp [hb, hi] <;> omega
    · simp [hb]
      simpa using ih

theorem resolveAgainst_of_nameCount_zero (cfg : frozenConfig) (l : List bindingTo)
    (new : bindingTo) (h : nameCount new.toName l = 0) :
    resolveAgainst cfg l new = (l, new) := by
  induction l with
  | nil => simp [resolveAgainst]
  | cons old rest ih =>
    simp only [nameCount, List.countP_cons] at h ih
    have hold : ¬ (old.toName == new.toName) = true := by
      intro hc
      simp [hc] at h
    have hrest : List.countP (fun b => b.toName == new.toName) rest = 0 := by omega
    unfold resolveAgainst
    have hne : (old.toName != new.toName) = true := by
      simpa [bne] using hold
    simp only [hne, if_true, ih hrest]

theorem resolveAgainst_liveCount_other (cfg : frozenConfig) (l : List bindingTo)
    (new : bindingTo) (m : String) (hm : ¬ (new.toName == m) = true) :
    liveCount m (resolveAgainst cfg l new).1 = liveCount m l := by
  induction l generalizing new with
  | nil => simp [resolveAgainst]
  | cons old rest ih =>
    unfold resolveAgainst
    by_cases hn : (old.toName != new.toName) = true
    · simp only [hn, if_true, liveCount, List.countP_cons]
      have := ih new hm
      simp only [liveCount] at this
      rw [this]
    · simp only [hn]
      have hon : old.toName = new.toName := by simpa [bne] using hn
      have := ih { new with ignored := (resolveConflictBinding cfg old.binding new.binding).2 } hm
      simp only [liveCount] at this
      simp only [Bool.false_eq_true, if_false, liveCount, List.countP_cons, this]
      have h1 : (old.toName == m) = false := by
        rw [hon]; simpa using hm
      simp [h1]

theorem resolveAgainst_liveCount_same (cfg : frozenConfig) (l : List bindingTo)
    (new : bindingTo) (h : nameCount new.toName l ≤ 1) :
    liveCount new.toName (resolveAgainst cfg l new).1
      + (if (resolveAgainst cfg l new).2.ignored = true then 0 else 1) ≤ 1 := by
  induction l generalizing new with
  | nil =>
    simp only [resolveAgainst, liveCount, List.countP_nil]
    split_ifs <;> omega
  | cons old rest ih =>
    unfold resolveAgainst
    by_cases hn : (old.toName != new.toName) = true
    · have hon : (old.toName == new.toName) = false := by simpa [bne] using hn
      have hrest : nameCount new.toName rest ≤ 1 := by
        simp only [nameCount, List.countP_cons, hon] at h ⊢
        simpa using h
      have := ih new hrest
      simp only [hn, if_true, liveCount, List.countP_cons, hon, Bool.and_false] at this ⊢
      simpa using this
    · have hon : (old.toName == new.toName) = true := by simpa [bne] using hn
      have hrest : nameCount new.toName rest = 0 := by
        simp only [nameCount, List.countP_cons, hon, if_true] at h ⊢
        omega
      have hz := resolveAgainst_of_nameCount_zero cfg rest
        { new with ignored := (resolveConflictBinding cfg old.binding new.binding).2 } hrest
      have hlive : liveCount new.toName rest = 0 := by
        have := liveCount_le_nameCount new.toName rest
        omega
      simp only [liveCount] at hlive
      simp only [hn, Bool.false_eq_true, if_false, hz, liveCount, List.countP_cons, hlive, hon,
        Bool.and_true]
      rcases resolveConflictBinding_flags_or cfg old.binding new.binding with h1 | h2
      · simp [h1]
        split_ifs <;> omega
      · simp [h2]
        split_ifs <;> omega

theorem nameCount_eq_keys (m : String) (l : List bindingTo) :
    nameCount m l = ((l.map bindingTo.key).map Prod.snd).count m := by
  induction l with
  | nil => simp [nameCount]
  | cons b rest ih =>
    simp only [nameCount, List.countP_cons, List.map_cons, List.count_cons] at ih ⊢
    rw [ih]
    rfl

theorem addCandidate_nameCount (cfg : frozenConfig) (l : List bindingTo) (binding : Binding)
    (toName m : String) :
    nameCount m (addCandidate cfg l binding toName)
      = nameCount m l + (if (toName == m) = true then 1 else 0) := by
  rw [nameCount_eq_keys, nameCount_eq_keys, addCandidate_keys]
  simp [List.count_cons, List.count_append]

theorem addCandidate_liveCount (cfg : frozenConfig) (l : List bindingTo) (binding : Binding)
    (toName : String) (hinv : ∀ m, liveCount m l ≤ 1) (hname : nameCount toName l ≤ 1)
    (m : String) :
    liveCount m (addCandidate cfg l binding toName) ≤ 1 := by
  have hkey := (resolveAgainst_keys cfg l
    { binding := binding, toName := toName, ignored := false }).2
  have htn : (resolveAgainst cfg l
      { binding := binding, toName := toName, ignored := false }).2.toName = toName := by
    have := congrArg Prod.snd hkey
    simpa [bindingTo.key] using this
  unfold addCandidate
  simp only [liveCount, List.countP_append, List.countP_cons, List.countP_nil, htn]
  by_cases hm : (toName == m) = true
  · have hm2 : toName = m := by simpa using hm
    subst hm2
    have := resolveAgainst_liveCount_same cfg l
      { binding := binding, toName := toName, ignored := false } hname
    simp only [liveCount] at this
    simp only [beq_self_eq_true, Bool.and_true]
    split_ifs at this ⊢ <;> simp_all
  · have := resolveAgainst_liveCount_other cfg l
      { binding := binding, toName := toName, ignored := false } m hm
    simp only [liveCount] at this
    rw [this]
    have := hinv m
    simp only [liveCount] at this
    simp [hm]
    exact this

theorem orderedBindings_foldl_candidates (cfg : frozenConfig) (fields : List Binding)
    (acc : List bindingTo) :
    fields.foldl (fun acc binding => addBinding cfg acc binding) acc
      = (candidates fields).foldl (fun acc c => addCandidate cfg acc c.1 c.2) acc := by
  induction fields generalizing acc with
  | nil => simp [candidates]
  | cons b rest ih =>
    simp only [List.foldl_cons, candidates, List.flatMap_cons, List.foldl_append]
    rw [ih]
    simp only [candidates, addBinding, List.foldl_map]

theorem foldl_addCandidate_liveCount (cfg : frozenConfig) (cs : List (Binding × String))
    (acc : List bindingTo) (hinv : ∀ m, liveCount m acc ≤ 1)
    (hcount : ∀ m, nameCount m acc + (cs.map Prod.snd).count m ≤ 2) (m : String) :
    liveCount m (cs.foldl (fun acc c => addCandidate cfg acc c.1 c.2) acc) ≤ 1 := by
  induction cs generalizing acc with
  | nil => simpa using hinv m
  | cons c cs ih =>
    simp only [List.foldl_cons]
    have hname : nameCount c.2 acc ≤ 1 := by
      have := hcount c.2
      simp only [List.map_cons, List.count_cons_self] at this
      omega
    apply ih
    · exact addCandidate_liveCount cfg acc c.1 c.2 hinv hname
    · intro k
      have := hcount k
      rw [addCandidate_nameCount]
      simp only [List.map_cons, List.count_cons] at this
      omega

theorem finalOrderedFields_count (m : String) (l : List bindingTo) :
    ((finalOrderedFields l).map (fun f => f.toName)).count m = liveCount m l := by
  induction l with
  | nil => simp [finalOrderedFields, liveCount]
  | cons b rest ih =>
    unfold finalOrderedFields
    simp only [liveCount, List.countP_cons] at ih ⊢
    by_cases hb : b.ignored = true
    · simp [hb, ih]
    · simp only [hb, Bool.not_false, if_true, List.map_cons, List.count_cons, ih]
      simp [hb]

/-- C20: when each output name is carried by at most two candidates, the
output names of the field list built by `encoderOfStruct` are pairwise
distinct. -/
theorem encoderOfStruct_toNames_nodup_of_at_most_two (cfg : frozenConfig) (typ : GoType)
    (structDescriptor : StructDescriptor)
    (h : ∀ toName, ((candidates structDescriptor.Fields).map Prod.snd).count toName ≤ 2) :
    (encoderOfStruct cfg typ structDescriptor).toNames.Nodup := by
  unfold encoderOfStruct
  by_cases h0 : ((orderedBindings cfg structDescriptor.Fields).length == 0) = true
  · simp [h0, StructPlan.toNames, StructPlan.fields]
  · simp only [h0, Bool.false_eq_true, if_false, StructPlan.toNames, StructPlan.fields]
    rw [List.nodup_iff_count_le_one]
    intro m
    rw [finalOrderedFields_count, orderedBindings, orderedBindings_foldl_candidates]
    apply foldl_addCandidate_liveCount
    · intro k; simp [liveCount]
    · intro k
      simpa [nameCount] using h k

/-- Witness of C20 on a tagged and an untagged binding with the same output
name. -/
theorem encoderOfStruct_toNames_nodup_of_at_most_two_witness :
    (encoderOfStruct sampleConfig { name := "T" }
        { Fields := [sampleBinding "A" "X" [0] "X", sampleBinding "X" "" [1] "X"] }).toNames.Nodup :=
  encoderOfStruct_toNames_nodup_of_at_most_two sampleConfig { name := "T" }
    { Fields := [sampleBinding "A" "X" [0] "X", sampleBinding "X" "" [1] "X"] }
    (fun toName => le_trans (List.count_le_length _ _) (by decide))

/-- C18: the pairwise call on the tied bindings `A` and `B` marks both as
ignored, and after the two of them the recorded flags are set; the later
comparisons with the deeper binding `C` assign both flags again, to false, and
`A` and `B` are in the final field list. -/
theorem encoderOfStruct_ignored_flag_overwritten :
    resolveConflictBinding sampleConfig
        (sampleBinding "A" "" [0, 0] "X") (sampleBinding "B" "" [1, 0] "X") = (true, true) ∧
    (orderedBindings sampleConfig
        [sampleBinding "A" "" [0, 0] "X", sampleBinding "B" "" [1, 0] "X"]).map
        (fun b => b.ignored) = [true, true] ∧
    (orderedBindings sampleConfig
        [sampleBinding "A" "" [0, 0] "X", sampleBinding "B" "" [1, 0] "X",
         sampleBinding "C" "" [2, 0, 0] "X"]).map
        (fun b => b.ignored) = [false, false, true] ∧
    (encoderOfStruct sampleConfig { name := "T" }
        { Fields := [sampleBinding "A" "" [0, 0] "X", sampleBinding "B" "" [1, 0] "X",
                     sampleBinding "C" "" [2, 0, 0] "X"] }).boundNames
      = [("A", "X"), ("B", "X")] := by
  decide

/-! ## Struct plan: errors raised inside the field loop -/

/-- The error slot after a dispatcher whose leaf codec leaves it as it is. -/
theorem structFieldEncoder_Encode_Error_of_keep (encoder : structFieldEncoder) (ptr : Pointer)
    (stream : Stream)
    (hkeep : (encoder.fieldEncoder.Encode (encoder.fieldPtr ptr) stream).Error = stream.Error) :
    (encoder.Encode ptr stream).Error =
      match stream.Error with
      | none => none
      | some GoError.EOF => some GoError.EOF
      | some (GoError.errorString m) =>
        some (GoError.errorString (encoder.field.Name ++ ": " ++ m)) := by
  cases h : stream.Error with
  | none =>
    rw [h] at hkeep
    unfold structFieldEncoder.Encode
    simp only [hkeep]
  | some err =>
    rw [h] at hkeep
    unfold structFieldEncoder.Encode
    cases err <;> simp only [hkeep, GoError.Error]

theorem separatedEntries_Error_none (ptr : Pointer) (l : List structFieldTo)
    (hkeep : ∀ g ∈ l, ∀ (p : Pointer) (s : Stream),
      (g.encoder.fieldEncoder.Encode p s).Error = s.Error)
    (stream : Stream) (h : stream.Error = none) :
    (separatedEntries ptr l stream).Error = none := by
  induction l generalizing stream with
  | nil => simpa [separatedEntries] using h
  | cons g rest ih =>
    simp only [separatedEntries, List.foldl_cons]
    apply ih (fun f hf => hkeep f (List.mem_cons_of_mem _ hf))
    rw [specEntry, structFieldEncoder_Encode_Error_of_keep _ _ _
      (hkeep g (List.mem_cons_self _ _) _ _)]
    simp [Stream.WriteObjectField, Stream.WriteMore, h]

theorem separatedEntries_Error_some (ptr : Pointer) (l : List structFieldTo)
    (hkeep : ∀ g ∈ l, ∀ (p : Pointer) (s : Stream),
      (g.encoder.fieldEncoder.Encode p s).Error = s.Error)
    (stream : Stream) (m : String) (h : stream.Error = some (GoError.errorString m)) :
    (separatedEntries ptr l stream).Error
      = some (GoError.errorString (prefixedBy (l.map (fun g => g.encoder.field.Name)) m)) := by
  induction l generalizing stream m with
  | nil => simpa [separatedEntries, prefixedBy] using h
  | cons g rest ih =>
    simp only [separatedEntries, List.foldl_cons, List.map_cons, prefixedBy]
    apply ih (fun f hf => hkeep f (List.mem_cons_of_mem _ hf))
    rw [specEntry, structFieldEncoder_Encode_Error_of_keep _ _ _
      (hkeep g (List.mem_cons_self _ _) _ _)]
    simp [Stream.WriteObjectField, Stream.WriteMore, h]

theorem encodeFields_cons_of_not_skipped (ptr : Pointer) (field : structFieldTo)
    (post : List structFieldTo) (isNotFirst : Bool) (stream : Stream)
    (h : specSkipped ptr field = false) :
    structEncoder.encodeFields ptr (field :: post) isNotFirst stream
      = separatedEntries ptr (post.filter (fun g => !specSkipped ptr g))
          (specEntry ptr field (if isNotFirst then stream.WriteMore else stream)) := by
  have h1 : (field.encoder.omitempty && field.encoder.IsEmpty ptr) = false := by
    simp only [specSkipped, Bool.or_eq_false_iff] at h
    exact h.1
  have h2 : field.encoder.IsEmbeddedPtrNil ptr = false := by
    simp only [specSkipped, Bool.or_eq_false_iff] at h
    exact h.2
  rw [structEncoder.encodeFields]
  simp only [h1, h2, Bool.false_eq_true, if_false]
  rw [encodeFields_isNotFirst]
  cases isNotFirst <;> simp [specEntry]

theorem encodeFields_cons_of_skipped (ptr : Pointer) (field : structFieldTo)
    (rest : List structFieldTo) (isNotFirst : Bool) (stream : Stream)
    (h : specSkipped ptr field = true) :
    structEncoder.encodeFields ptr (field :: rest) isNotFirst stream
      = structEncoder.encodeFields ptr rest isNotFirst stream := by
  rw [structEncoder.encodeFields]
  by_cases h1 : (field.encoder.omitempty && field.encoder.IsEmpty ptr) = true
  · simp [h1]
  · have h2 : field.encoder.IsEmbeddedPtrNil ptr = true := by
      simp only [specSkipped, Bool.or_eq_true] at h
      rcases h with h | h
      · exact absurd h h1
      · exact h
    simp [h1, h2]

theorem encodeFields_append (ptr : Pointer) (pre post : List structFieldTo) (isNotFirst : Bool)
    (stream : Stream) :
    structEncoder.encodeFields ptr (pre ++ post) isNotFirst stream
      = structEncoder.encodeFields ptr post
          (isNotFirst || pre.any (fun g => !specSkipped ptr g))
          (structEncoder.encodeFields ptr pre isNotFirst stream) := by
  induction pre generalizing isNotFirst stream with
  | nil => simp [structEncoder.encodeFields]
  | cons g pre ih =>
    by_cases hg : specSkipped ptr g = true
    · rw [List.cons_append, encodeFields_cons_of_skipped _ _ _ _ _ hg,
        encodeFields_cons_of_skipped _ _ _ _ _ hg, ih]
      simp [hg]
    · have hg2 : specSkipped ptr g = false := by simpa using hg
      have h1 : (g.encoder.omitempty && g.encoder.IsEmpty ptr) = false := by
        simp only [specSkipped, Bool.or_eq_false_iff] at hg2
        exact hg2.1
      have h2 : g.encoder.IsEmbeddedPtrNil ptr = false := by
        simp only [specSkipped, Bool.or_eq_false_iff] at hg2
        exact hg2.2
      rw [List.cons_append, structEncoder.encodeFields, structEncoder.encodeFields]
      simp only [h1, h2, Bool.false_eq_true, if_false]
      rw [ih]
      simp [hg2]

theorem encodeFields_Error_none (ptr : Pointer) (l : List structFieldTo)
    (hkeep : ∀ g ∈ l, ∀ (p : Pointer) (s : Stream),
      (g.encoder.fieldEncoder.Encode p s).Error = s.Error)
    (isNotFirst : Bool) (stream : Stream) (h : stream.Error = none) :
    (structEncoder.encodeFields ptr l isNotFirst stream).Error = none := by
  induction l generalizing isNotFirst stream with
  | nil => simpa [structEncoder.encodeFields] using h
  | cons g rest ih =>
    have hrest : ∀ f ∈ rest, ∀ (p : Pointer) (s : Stream),
        (f.encoder.fieldEncoder.Encode p s).Error = s.Error :=
      fun f hf => hkeep f (List.mem_cons_of_mem _ hf)
    by_cases hg : specSkipped ptr g = true
    · rw [encodeFields_cons_of_skipped _ _ _ _ _ hg]
      exact ih hrest _ _ h
    · have hg2 : specSkipped ptr g = false := by simpa using hg
      rw [encodeFields_cons_of_not_skipped _ _ _ _ _ hg2]
      apply separatedEntries_Error_none _ _
        (fun f hf => hrest f (List.mem_of_mem_filter hf))
      rw [specEntry, structFieldEncoder_Encode_Error_of_keep _ _ _
        (hkeep g (List.mem_cons_self _ _) _ _)]
      cases isNotFirst <;> simp [Stream.WriteObjectField, Stream.WriteMore, h]

theorem structFieldEncoder_Encode_Error_of_errorString (encoder : structFieldEncoder)
    (ptr : Pointer) (stream : Stream) (m : String)
    (h : (encoder.fieldEncoder.Encode (encoder.fieldPtr ptr) stream).Error
      = some (GoError.errorString m)) :
    (encoder.Encode ptr stream).Error
      = some (GoError.errorString (encoder.field.Name ++ ": " ++ m)) := by
  unfold structFieldEncoder.Encode
  simp only [h, GoError.Error]

theorem structEncoder_Encode_Error_of_errorString (encoder : structEncoder) (ptr : Pointer)
    (stream : Stream) (m : String)
    (h : (structEncoder.encodeFields ptr encoder.fields false stream.WriteObjectStart).Error
      = some (GoError.errorString m)) :
    (encoder.Encode ptr stream).Error
      = some (GoError.errorString (encoder.typ.name ++ "." ++ m)) := by
  unfold structEncoder.Encode
  simp only [Stream.WriteObjectEnd, h, GoError.Error]

theorem createCheckIsEmpty_lazyErrorEncoder_inv (cfg : frozenConfig) (typ : GoType)
    (err : GoError) (h : createCheckIsEmpty cfg typ = checkIsEmpty.lazyErrorEncoder err) :
    err = GoError.errorString ("unsupported type: " ++ typ.name) := by
  unfold createCheckIsEmpty at h
  cases hk : typ.kind <;> simp_all

/-- C12, as stated, fails: in a plan whose first field has the
permanently-failing codec of a channel type and whose second field encodes
without error, the error after `Encode` on a stream with no prior error is
`T.b: a: unsupported type: chan int`, not `T.a: unsupported type: chan int`. -/
theorem structEncoder_Encode_unsupported_not_last :
    (sampleFailingPlan.Encode 0 { buf := "", Error := none }).Error
      = some (GoError.errorString "T.b: a: unsupported type: chan int") ∧
    (sampleFailingPlan.Encode 0 { buf := "", Error := none }).Error
      ≠ some (GoError.errorString "T.a: unsupported type: chan int") := by
  decide

/-- C12 (amended): let a plan hold a field whose leaf codec reports, on a
stream without error, the error the selector stored for a type of unsupported
kind, and let the leaf codecs of its other fields leave the error slot as it
is.  After `Encode` on a stream with no prior error the error message is
`<TypeName>.`, then the name of every emitted field that comes after the
failing one, last first, each followed by `: `, then
`<fieldName>: unsupported type: <type>`.  It is exactly
`<TypeName>.<fieldName>: unsupported type: <type>` when no emitted field
follows the failing one. -/
theorem structEncoder_Encode_unsupported_error (cfg : frozenConfig) (encoder : structEncoder)
    (ptr : Pointer) (stream : Stream) (pre post : List structFieldTo) (field : structFieldTo)
    (typ : GoType) (err : GoError)
    (hfields : encoder.fields = pre ++ field :: post)
    (hprior : stream.Error = none)
    (hsel : createCheckIsEmpty cfg typ = checkIsEmpty.lazyErrorEncoder err)
    (hfail : ∀ (p : Pointer) (s : Stream), s.Error = none →
      (field.encoder.fieldEncoder.Encode p s).Error = some err)
    (hemit : specSkipped ptr field = false)
    (hpre : ∀ g ∈ pre, ∀ (p : Pointer) (s : Stream),
      (g.encoder.fieldEncoder.Encode p s).Error = s.Error)
    (hpost : ∀ g ∈ post, ∀ (p : Pointer) (s : Stream),
      (g.encoder.fieldEncoder.Encode p s).Error = s.Error) :
    (encoder.Encode ptr stream).Error
      = some (GoError.errorString (encoder.typ.name ++ "." ++
          prefixedBy
            ((post.filter (fun g => !specSkipped ptr g)).map (fun g => g.encoder.field.Name))
            (field.encoder.field.Name ++ ": " ++ ("unsupported type: " ++ typ.name)))) ∧
    (post.filter (fun g => !specSkipped ptr g) = [] →
      (encoder.Encode ptr stream).Error
        = some (GoError.errorString (encoder.typ.name ++ "." ++
            (field.encoder.field.Name ++ ": " ++ ("unsupported type: " ++ typ.name))))) := by
  have herr := createCheckIsEmpty_lazyErrorEncoder_inv cfg typ err hsel
  subst herr
  have hmain : (encoder.Encode ptr stream).Error
      = some (GoError.errorString (encoder.typ.name ++ "." ++
          prefixedBy
            ((post.filter (fun g => !specSkipped ptr g)).map (fun g => g.encoder.field.Name))
            (field.encoder.field.Name ++ ": " ++ ("unsupported type: " ++ typ.name)))) := by
    apply structEncoder_Encode_Error_of_errorString
    rw [hfields, encodeFields_append, encodeFields_cons_of_not_skipped _ _ _ _ _ hemit]
    apply separatedEntries_Error_some _ _ (fun g hg => hpost g (List.mem_of_mem_filter hg))
    rw [specEntry]
    apply structFieldEncoder_Encode_Error_of_errorString
    apply hfail
    have hnone : (structEncoder.encodeFields ptr pre false stream.WriteObjectStart).Error
        = none :=
      encodeFields_Error_none ptr pre hpre false _ (by simp [Stream.WriteObjectStart, hprior])
    split_ifs <;> simp [Stream.WriteObjectField, Stream.WriteMore, hnone]
  refine ⟨hmain, fun hlast => ?_⟩
  rw [hmain, hlast]
  rfl

/-- Witness of C12 (amended) on a plan whose last field is of a channel
type. -/
theorem structEncoder_Encode_unsupported_error_witness :
    (sampleFailingLastPlan.Encode 0 { buf := "", Error := none }).Error
      = some (GoError.errorString ("T" ++ "." ++ ("a" ++ ": " ++ ("unsupported type: " ++ "chan int")))) :=
  (structEncoder_Encode_unsupported_error sampleConfig sampleFailingLastPlan 0
    { buf := "", Error := none } [sampleField "b" "1" false false none] []
    (sampleTypedField "a" sampleChanType) sampleChanType
    (GoError.errorString "unsupported type: chan int")
    rfl rfl rfl (fun _ _ _ => rfl) rfl
    (by
      intro g hg p s
      simp only [List.mem_singleton] at hg
      subst hg
      rfl)
    (by
      intro g hg
      simp at hg)).2 rfl

/-- C15, as stated, fails: in a plan whose first field leaves a non-sentinel
error on the stream, the field loop goes on: the output name of the second
field is written and its dispatcher invoked (the leaf codec of `b` appends
`1`). -/
theorem structEncoder_Encode_continues_after_error :
    ((sampleTypedField "a" sampleChanType).encoder.Encode 0
        ((({ buf := "", Error := none } : Stream).WriteObjectStart).WriteObjectField "a")).Error
      = some (GoError.errorString "a: unsupported type: chan int") ∧
    (sampleFailingPlan.Encode 0 { buf := "", Error := none }).buf
      = "\x7b\"a\":,\"b\":1\x7d" := by
  decide

/-- C15 (amended): `structEncoder.Encode` does not abort its field loop.  After
a non-skipped field, whatever its encoding left on the stream (an error
included), the loop goes on over the remaining fields on that stream and
writes, for every later non-skipped field, a separator, its output name and
what its dispatcher encodes; the bytes of `Encode` are those of that run
followed by the object end. -/
theorem structEncoder_encodeFields_no_abort (encoder : structEncoder) (ptr : Pointer)
    (stream : Stream) (pre post : List structFieldTo) (field : structFieldTo)
    (hfields : encoder.fields = pre ++ field :: post)
    (hemit : specSkipped ptr field = false) :
    structEncoder.encodeFields ptr encoder.fields false stream.WriteObjectStart
      = separatedEntries ptr (post.filter (fun g => !specSkipped ptr g))
          (specEntry ptr field
            (if (false || pre.any (fun g => !specSkipped ptr g)) = true then
              (structEncoder.encodeFields ptr pre false stream.WriteObjectStart).WriteMore
            else structEncoder.encodeFields ptr pre false stream.WriteObjectStart)) ∧
    (encoder.Encode ptr stream).buf
      = (separatedEntries ptr (post.filter (fun g => !specSkipped ptr g))
          (specEntry ptr field
            (if (false || pre.any (fun g => !specSkipped ptr g)) = true then
              (structEncoder.encodeFields ptr pre false stream.WriteObjectStart).WriteMore
            else structEncoder.encodeFields ptr pre false
              stream.WriteObjectStart))).WriteObjectEnd.buf := by
  have hloop : structEncoder.encodeFields ptr encoder.fields false stream.WriteObjectStart
      = separatedEntries ptr (post.filter (fun g => !specSkipped ptr g))
          (specEntry ptr field
            (if (false || pre.any (fun g => !specSkipped ptr g)) = true then
              (structEncoder.encodeFields ptr pre false stream.WriteObjectStart).WriteMore
            else structEncoder.encodeFields ptr pre false stream.WriteObjectStart)) := by
    rw [hfields, encodeFields_append, encodeFields_cons_of_not_skipped _ _ _ _ _ hemit]
  refine ⟨hloop, ?_⟩
  rw [structEncoder_Encode_buf, hloop]
  simp [Stream.WriteObjectEnd]

/-- Witness of C15 (amended) on the plan whose first field fails: the entry of
the second field is written after it. -/
theorem structEncoder_encodeFields_no_abort_witness :
    (sampleFailingPlan.Encode 0 { buf := "", Error := none }).buf
      = "\x7b\"a\":,\"b\":1\x7d" :=
  ((structEncoder_encodeFields_no_abort sampleFailingPlan 0 { buf := "", Error := none } []
    [sampleField "b" "1" false false none] (sampleTypedField "a" sampleChanType) rfl rfl).2).trans
    (by decide)

end jsoniter
